import Mathlib

/-!
Verification of the Asset Resolution & Specification Extraction Engine of
`mcp_server.py` (MuleSoft Exchange MCP server).  The Python source is shallowly
embedded: JSON values become an inductive `Json` type, Python truthiness is made
explicit, dict lookups are explicit association-list lookups, HTTP calls are
abstracted as outcome parameters, and the process-wide session becomes explicit
state passing.
-/

namespace MuleSoft

/-- JSON values as decoded by Python's `json` module (dicts keep insertion
order, keys are unique). -/
inductive Json where
  | null : Json
  | str (s : String) : Json
  | num (n : Int) : Json
  | bool (b : Bool) : Json
  | arr (xs : List Json) : Json
  | obj (kvs : List (String × Json)) : Json
deriving Repr

/-- Association-list lookup, modelling Python `dict` access on a decoded JSON
object (keys are unique, so first match is the match). -/
def lookupJ : List (String × Json) → String → Option Json
  | [], _ => none
  | (k, v) :: rest, key => if k = key then some v else lookupJ rest key

/-- `d.get(k)` on a decoded JSON object; `none` when the key is absent (or the
value is not an object). -/
def jget (j : Json) (k : String) : Option Json :=
  match j with
  | .obj kvs => lookupJ kvs k
  | _ => none

/-- Python truthiness of a decoded JSON value (`if data:`). -/
def truthy : Json → Bool
  | .null => false
  | .str s => !(s = "")
  | .num n => !(n = 0)
  | .bool b => b
  | .arr xs => !xs.isEmpty
  | .obj kvs => !kvs.isEmpty

/-- First-some choice on options (`a` wins when present). -/
def oor {α : Type} : Option α → Option α → Option α
  | some x, _ => some x
  | none, b => b

/-- `listStartsWith p cs` is "`cs` starts with `p`". -/
def listStartsWith : List Char → List Char → Bool
  | [], _ => true
  | _ :: _, [] => false
  | p :: ps, c :: cs => p = c && listStartsWith ps cs

/-- Contiguous-subsequence test on character lists. -/
def listContainsSeq (pat : List Char) : List Char → Bool
  | [] => listStartsWith pat []
  | c :: cs => listStartsWith pat (c :: cs) || listContainsSeq pat cs

/-- Python substring containment: `pat in s`. -/
def strContains (s pat : String) : Bool :=
  listContainsSeq pat.toList s.toList

/-! ## Session Manager

`MuleSoftExchangeClient` holds `access_token` (initially `None`) and
`token_expires_at` (initially `None`).  `authenticate` posts client credentials;
on HTTP success it stores `token_data.get('access_token')` and
`now + (token_data.get('expires_in', 3600) - 300)` and returns `True`; on any
exception it returns `False` and leaves the state unchanged.
`_ensure_authenticated` re-authenticates iff the token is falsy or the stored
expiry is present and `now >= expiry`.  `get_headers` calls
`_ensure_authenticated` and then unconditionally builds the `Bearer` header
from whatever token is stored. -/

structure Session where
  accessToken : Option String
  tokenExpiresAt : Option Int
deriving Repr, DecidableEq

/-- The decoded body of a successful token response: the optional
`access_token` and `expires_in` fields.  `none` at the outer level models any
exception (transport error, non-2xx via `raise_for_status`, undecodable body). -/
def AuthResponse : Type := Option (Option String × Option Int)

/-- `MuleSoftExchangeClient.authenticate`, with the HTTP outcome passed in.
Returns the new session state and the boolean result. -/
def authenticate (s : Session) (now : Int) (resp : AuthResponse) :
    Session × Bool :=
  match resp with
  | none => (s, false)
  | some (tok, expIn) =>
      ({ accessToken := tok,
         tokenExpiresAt := some (now + ((expIn.getD 3600) - 300)) }, true)

/-- Python truthiness of the stored token (`not self.access_token`): `None` and
the empty string are falsy. -/
def tokTruthy : Option String → Bool
  | none => false
  | some s => !(s = "")

/-- The renewal condition of `_ensure_authenticated`:
`not self.access_token or (self.token_expires_at and now >= self.token_expires_at)`. -/
def needsAuth (s : Session) (now : Int) : Bool :=
  !(tokTruthy s.accessToken) ||
    (match s.tokenExpiresAt with
     | none => false
     | some e => decide (e ≤ now))

/-- `MuleSoftExchangeClient._ensure_authenticated`. -/
def ensureAuthenticated (s : Session) (now : Int) (resp : AuthResponse) :
    Session :=
  if needsAuth s now then (authenticate s now resp).1 else s

/-- `MuleSoftExchangeClient.get_headers`: the session state after
`_ensure_authenticated`; the `Authorization` header is built from its
`accessToken` field unconditionally. -/
def getHeadersState (s : Session) (now : Int) (resp : AuthResponse) : Session :=
  ensureAuthenticated s now resp

/-! ## Registry Search

`search_assets` normalizes the decoded response: a bare list is used as-is; a
dict is probed for `assets`, then `data`, then `items`, each branch immediately
logging `len()` of the probed value — which raises `TypeError` when that value
is unsized (`None`, a number, a boolean), sending control to the outer
`except`; a dict with none of those keys becomes `[data] if data else []`; any
other shape becomes `[]`.  The whole call is wrapped in `try/except` returning
`[]` on any failure. -/

/-- Whether Python `len()` is defined for a decoded JSON value (string, list
or dict; `TypeError` otherwise). -/
def hasLen : Json → Bool
  | .str _ => true
  | .arr _ => true
  | .obj _ => true
  | _ => false

/-- The envelope-normalization step of `search_assets` on the decoded response
body.  `none` models the `TypeError` raised by the probe branch's
`len()`-logging call when the probed value is unsized; it escapes to the outer
`except` of `search_assets`. -/
def searchNormalize (data : Json) : Option Json :=
  match data with
  | .arr xs => some (.arr xs)
  | .obj kvs =>
      match lookupJ kvs "assets" with
      | some v => if hasLen v then some v else none
      | none =>
          match lookupJ kvs "data" with
          | some v => if hasLen v then some v else none
          | none =>
              match lookupJ kvs "items" with
              | some v => if hasLen v then some v else none
              | none =>
                  some (if truthy (.obj kvs) then .arr [.obj kvs] else .arr [])
  | _ => some (.arr [])

/-- `search_assets` end to end: any exception anywhere inside the call
(authentication, request, `raise_for_status`, body decoding, the `len()` of an
unsized probed value) is absorbed by the outer `except`, which returns the
empty list. -/
def searchAssetsRun (resp : Except String Json) : Json :=
  match resp with
  | .error _ => .arr []
  | .ok data =>
      match searchNormalize data with
      | some assets => assets
      | none => .arr []

/-! ## Asset Resolver: effective-version resolution

When no version is given, `get_asset_details` searches on the asset id, takes
the first summary whose `groupId`/`assetId` match exactly and reads its
`version` (default `'1.0.0'`); if the resulting version is still falsy it reads
the first summary's `version` (default `'1.0.0'`); with no results at all the
version is `'1.0.0'`. -/

/-- Python `asset.get(k) == s` where `s` is a string: true iff the key is
present with exactly that string value. -/
def isStrVal (o : Option Json) (s : String) : Bool :=
  match o with
  | some (.str t) => t = s
  | _ => false

/-- The exact-identity predicate of the version-resolution loop:
`asset.get('groupId') == group_id and asset.get('assetId') == asset_id`. -/
def isMatch (gid aid : String) (a : Json) : Bool :=
  isStrVal (jget a "groupId") gid && isStrVal (jget a "assetId") aid

/-- The effective version computed by `get_asset_details` when the `version`
argument is absent, as a function of the summaries returned by the search. -/
def effectiveVersion (gid aid : String) (assets : List Json) : Json :=
  match assets with
  | [] => .str "1.0.0"
  | a0 :: _ =>
      let v : Json :=
        match assets.find? (isMatch gid aid) with
        | some a => (jget a "version").getD (.str "1.0.0")
        | none => .null
      if truthy v then v else (jget a0 "version").getD (.str "1.0.0")

/-! ## Asset Resolver: detail-endpoint cascade

`get_asset_details` tries four detail URLs in a fixed order; each attempt
either returns a decoded body on HTTP 200, or falls through (non-200 status,
transport failure, or undecodable body — the inner `except` swallows the
exception and `continue`s). -/

/-- Outcome of one GET against a detail endpoint: HTTP 200 with a decoded JSON
body, or anything else (non-200 status, transport error, decode failure). -/
inductive EndpointOutcome where
  | ok (body : Json) : EndpointOutcome
  | fail : EndpointOutcome
deriving Repr

/-- The four detail endpoints, in the order the source lists them: v2 with
version segment, v2 without, v1 with version segment, v1 without. -/
def detailEndpoints (base gid aid ver : String) : List String :=
  [ base ++ "/exchange/api/v2/assets/" ++ gid ++ "/" ++ aid ++ "/" ++ ver,
    base ++ "/exchange/api/v2/assets/" ++ gid ++ "/" ++ aid,
    base ++ "/exchange/api/v1/assets/" ++ gid ++ "/" ++ aid ++ "/" ++ ver,
    base ++ "/exchange/api/v1/assets/" ++ gid ++ "/" ++ aid ]

/-- The `for endpoint in detail_endpoints` loop: return the first 200 body,
counting how many requests were issued; a failed attempt advances to the next
endpoint. -/
def tryEndpoints : List EndpointOutcome → Option Json × Nat
  | [] => (none, 0)
  | .ok b :: _ => (some b, 1)
  | .fail :: os =>
      let r := tryEndpoints os
      (r.1, r.2 + 1)

/-- The detail-endpoint cascade of `get_asset_details`, with the per-URL HTTP
outcome passed in as a function. -/
def getAssetDetailsCascade (base gid aid ver : String)
    (outcomeOf : String → EndpointOutcome) : Option Json × Nat :=
  tryEndpoints ((detailEndpoints base gid aid ver).map outcomeOf)

/-! ## Archive Extractor

`_download_and_extract_spec` lists the ZIP entries, scans them once setting
`yaml_file` on every `.yaml`/`.yml` name and `json_file` on every `.json` name
(later entries overwrite earlier ones), then picks the declared `main_file` if
truthy and listed, else `yaml_file`, else `json_file`, else the first entry,
else returns `None`.  The selected entry is decoded as UTF-8; a name ending in
`.json` is JSON-parsed, returning structured content on success and raw text
otherwise. -/

/-- Python `str.lower()` (character-wise lowercasing; the file names involved
are ASCII, where this agrees with Python). -/
def strToLower (s : String) : String :=
  String.mk (s.toList.map Char.toLower)

/-- Python `str.upper()` (character-wise, as for `strToLower`). -/
def strToUpper (s : String) : String :=
  String.mk (s.toList.map Char.toUpper)

/-- Suffix test on the underlying character lists (Python `str.endswith`). -/
def strEndsWith (s suffix : String) : Bool :=
  listStartsWith suffix.toList.reverse s.toList.reverse

/-- `file_name.lower().endswith(('.yaml', '.yml'))`. -/
def isYamlExt (s : String) : Bool :=
  strEndsWith (strToLower s) ".yaml" || strEndsWith (strToLower s) ".yml"

/-- `file_name.lower().endswith('.json')`, reached only when the YAML test
failed (the source uses `elif`). -/
def isJsonExt (s : String) : Bool :=
  strEndsWith (strToLower s) ".json"

/-- The scan loop over the ZIP listing: every YAML-named entry overwrites
`yaml_file`, every (non-YAML) JSON-named entry overwrites `json_file`. -/
def scanYamlJson (fileList : List String) :
    Option String × Option String :=
  fileList.foldl
    (fun acc name =>
      if isYamlExt name then (some name, acc.2)
      else if isJsonExt name then (acc.1, some name)
      else acc)
    (none, none)

/-- Last element of a list satisfying `p`, if any. -/
def lastMatching {α : Type} (p : α → Bool) : List α → Option α
  | [] => none
  | x :: xs => oor (lastMatching p xs) (if p x then some x else none)

/-- Python truthiness of the `main_file` argument (`None` or `''` are falsy). -/
def mainTruthy : Option String → Bool
  | none => false
  | some s => !(s = "")

/-- The target-file selection of `_download_and_extract_spec`:
declared main file (when truthy and listed), else the scanned YAML entry, else
the scanned JSON entry, else the first entry, else nothing. -/
def selectTarget (fileList : List String) (mainFile : Option String) :
    Option String :=
  let scanned := scanYamlJson fileList
  match mainFile with
  | some m =>
      if !(m = "") && fileList.contains m then some m
      else oor scanned.1 (oor scanned.2 fileList.head?)
  | none => oor scanned.1 (oor scanned.2 fileList.head?)

/-- The shape of the dict `_download_and_extract_spec` (and the direct-download
branch of `get_asset_specification`) returns: structured JSON content or raw
text. -/
inductive SpecResult where
  | openapiJson (classifier : String) (fileName : Option String)
      (content : Json) (rawContent : String) (filesInZip : List String) :
      SpecResult
  | openapiYaml (classifier : String) (fileName : Option String)
      (content : String) (filesInZip : List String) : SpecResult
deriving Repr

/-- Entry lookup in the archive (`zip_file.open(target)` + UTF-8 decode):
entries are (name, decoded content) pairs. -/
def lookupEntry : List (String × String) → String → Option String
  | [], _ => none
  | (n, c) :: rest, target => if n = target then some c else lookupEntry rest target

/-- `_download_and_extract_spec`, with the archive listing and decoded entry
contents passed in, and `json.loads` abstracted as `parse` (returning `none` on
`JSONDecodeError`). -/
def downloadAndExtractSpec (entries : List (String × String))
    (classifier : String) (mainFile : Option String)
    (parse : String → Option Json) : Option SpecResult :=
  let fileList := entries.map Prod.fst
  match selectTarget fileList mainFile with
  | none => none
  | some target =>
      let content := (lookupEntry entries target).getD ""
      if strEndsWith (strToLower target) ".json" then
        match parse content with
        | some j =>
            some (.openapiJson classifier (some target) j content fileList)
        | none =>
            some (.openapiYaml classifier (some target) content fileList)
      else
        some (.openapiYaml classifier (some target) content fileList)

/-! ## Specification Retriever: classifier-priority file scan

`get_asset_specification` walks `priority_order = ['oas','fat-oas','raml','fat-raml']`
in the outer loop and the asset's `files` in the inner loop; a file is eligible
when its classifier equals the scanned one and its `externalLink` is non-empty.
An eligible file is fetched (archive extraction or direct download); a fetch
that yields nothing advances to the next file. -/

structure FileInfo where
  classifier : String
  packaging : String
  externalLink : String
  mainFile : String
deriving Repr, DecidableEq

/-- `priority_order` from the source. -/
def priorityOrder : List String := ["oas", "fat-oas", "raml", "fat-raml"]

/-- Eligibility of one file for the scanned classifier:
`file_classifier == classifier and external_link`. -/
def eligibleFor (c : String) (f : FileInfo) : Bool :=
  f.classifier = c && !(f.externalLink = "")

/-- The inner loop over `files` for one classifier: fetch the first eligible
file that yields a result. -/
def scanClassifier (c : String) (fetch : FileInfo → Option SpecResult) :
    List FileInfo → Option SpecResult
  | [] => none
  | f :: fs =>
      if eligibleFor c f then oor (fetch f) (scanClassifier c fetch fs)
      else scanClassifier c fetch fs

/-- The outer loop over the classifier priority list. -/
def scanPriority (files : List FileInfo)
    (fetch : FileInfo → Option SpecResult) : List String → Option SpecResult
  | [] => none
  | c :: cs => oor (scanClassifier c fetch files) (scanPriority files fetch cs)

/-- The file-driven phase of `get_asset_specification`. -/
def getSpecFromFiles (files : List FileInfo)
    (fetch : FileInfo → Option SpecResult) : Option SpecResult :=
  scanPriority files fetch priorityOrder

/-- The first eligible file in priority-major order: first classifier of the
priority list for which some file is eligible, then the first such file in
`files` order. -/
def firstEligibleAux (files : List FileInfo) : List String → Option FileInfo
  | [] => none
  | c :: cs => oor (files.find? (eligibleFor c)) (firstEligibleAux files cs)

def firstEligible (files : List FileInfo) : Option FileInfo :=
  firstEligibleAux files priorityOrder

/-! ## Endpoint Analyzer

The `analyze_api_endpoints` branch of `call_tool` takes the `paths` map of a
structured specification, iterates `(path, methods)` and then
`(method, details)`, upper-casing each method, counting methods and classifying
each record: `GET` with the literal substring `'{id}'` in the path is an
individual lookup, `GET` otherwise a listing, `POST` creation, `PUT`/`PATCH`
update, `DELETE` deletion; any other method contributes no pattern. -/

inductive Pattern where
  | get_by_id : Pattern
  | listing : Pattern
  | create : Pattern
  | update : Pattern
  | delete : Pattern
  | unclassified : Pattern
deriving Repr, DecidableEq

/-- The per-record CRUD classification of the pattern loop (the method is
already upper-cased).  The source appends a pattern string for the first five
cases and appends nothing otherwise; the absent case is modelled as
`unclassified`. -/
def classifyEndpoint (method path : String) : Pattern :=
  if method = "GET" && strContains path "{id}" then .get_by_id
  else if method = "GET" then .listing
  else if method = "POST" then .create
  else if method = "PUT" || method = "PATCH" then .update
  else if method = "DELETE" then .delete
  else .unclassified

/-- The `(path, method)` records derived from a `paths` map: one per
`(path, method)` pair with the method upper-cased, in iteration order.  (In the
source a non-object value under a path raises and aborts the analysis; such
inputs are outside every claim, which quantify over OpenAPI-shaped maps.) -/
def pathMethodPairs (paths : List (String × Json)) : List (String × String) :=
  paths.flatMap
    (fun pm =>
      match pm.2 with
      | .obj ms => ms.map (fun md => (pm.1, strToUpper md.1))
      | _ => [])

/-- The method histogram entry for one method: how often it occurs among the
derived records. -/
def countMethod (prs : List (String × String)) (m : String) : Nat :=
  (prs.filter (fun pr => pr.2 = m)).length

/-- The classification multiset over the derived records (the source
de-duplicates the rendered strings; membership is what the claims state). -/
def patternsOf (prs : List (String × String)) : List Pattern :=
  prs.map (fun pr => classifyEndpoint pr.2 pr.1)

/-- Total endpoint count reported by the analyzer: the size of the `paths`
map (`len(paths)`), when the specification is an object carrying a `paths`
object. -/
def endpointCount (spec : Json) : Option Nat :=
  match spec with
  | .obj kvs =>
      match lookupJ kvs "paths" with
      | some (.obj ps) => some ps.length
      | _ => none
  | _ => none

/-- The endpoint count the analyzer reports for a retrieved specification:
for `openapi_json` results it analyzes the structured `content`; `openapi_yaml`
results take the YAML early-exit branch and report no count. -/
def analyzeSpecCount : Option SpecResult → Option Nat
  | some (.openapiJson _ _ content _ _) => endpointCount content
  | _ => none

/-- Split a character list at `'/'` (every separator starts a new segment). -/
def splitSegs : List Char → List (List Char)
  | [] => [[]]
  | c :: cs =>
      if c = '/' then [] :: splitSegs cs
      else
        match splitSegs cs with
        | s :: rest => (c :: s) :: rest
        | [] => [[c]]

/-- Modelled from the spec: "`GET` with a path segment matching a
brace-delimited parameter token" — some `/`-separated segment of the path is
`{name}` for a non-empty parameter name.  This is the spec-side notion the
classification claim quantifies over; the source instead tests the literal
substring `'{id}'`. -/
def pathHasBraceParamSpec (path : String) : Bool :=
  (splitSegs path.toList).any
    (fun seg =>
      match seg with
      | '{' :: rest => rest.length ≥ 2 && rest.getLast? = some '}'
      | _ => false)

/-- The example specification from the spec's testable properties:
`{"paths": {"/accounts": {"get": {}, "post": {}}, "/accounts/{id}": {"get": {}, "delete": {}}}}`. -/
def examplePaths : List (String × Json) :=
  [ ("/accounts", .obj [("get", .obj []), ("post", .obj [])]),
    ("/accounts/{id}", .obj [("get", .obj []), ("delete", .obj [])]) ]

/-! ## Helper lemmas -/

theorem oor_assoc {α : Type} (a b c : Option α) :
    oor (oor a b) c = oor a (oor b c) := by
  cases a <;> cases b <;> rfl

theorem oor_none_right {α : Type} (a : Option α) : oor a none = a := by
  cases a <;> rfl

/-- Last element of a list satisfying a predicate, as a right-to-left fold:
cons case. -/
theorem lastMatching_cons {α : Type} (p : α → Bool) (x : α) (xs : List α) :
    lastMatching p (x :: xs) =
      oor (lastMatching p xs) (if p x then some x else none) := rfl

/-- The scan loop of `_download_and_extract_spec` computes the LAST
YAML-named entry and the LAST (non-YAML) JSON-named entry of the listing. -/
theorem scanYamlJson_fold (fileList : List String)
    (acc : Option String × Option String) :
    fileList.foldl
      (fun acc name =>
        if isYamlExt name then (some name, acc.2)
        else if isJsonExt name then (acc.1, some name)
        else acc) acc =
    (oor (lastMatching isYamlExt fileList) acc.1,
     oor (lastMatching (fun n => !isYamlExt n && isJsonExt n) fileList) acc.2) := by
  induction fileList generalizing acc with
  | nil => rfl
  | cons x xs ih =>
      simp only [List.foldl_cons, ih, lastMatching_cons, oor_assoc]
      by_cases hy : isYamlExt x
      · simp [hy, oor]
      · by_cases hj : isJsonExt x
        · simp [hy, hj, oor]
        · simp [hy, hj, oor]

theorem scanYamlJson_eq (fileList : List String) :
    scanYamlJson fileList =
      (lastMatching isYamlExt fileList,
       lastMatching (fun n => !isYamlExt n && isJsonExt n) fileList) := by
  unfold scanYamlJson
  rw [scanYamlJson_fold]
  simp [oor_none_right]

/-- The endpoint loop returns the first 200 body, having issued one request per
preceding failure plus the successful one. -/
theorem tryEndpoints_append_ok (pre post : List EndpointOutcome) (b : Json)
    (hpre : ∀ o ∈ pre, o = .fail) :
    tryEndpoints (pre ++ .ok b :: post) = (some b, pre.length + 1) := by
  induction pre with
  | nil => rfl
  | cons o os ih =>
      have ho : o = .fail := hpre o (List.mem_cons_self o os)
      subst ho
      have := ih (fun o' h' => hpre o' (List.mem_cons_of_mem _ h'))
      simp [tryEndpoints, this]

/-- With no 200 anywhere, the loop issues one request per endpoint and yields
nothing. -/
theorem tryEndpoints_all_fail (os : List EndpointOutcome)
    (h : ∀ o ∈ os, o = .fail) :
    tryEndpoints os = (none, os.length) := by
  induction os with
  | nil => rfl
  | cons o os ih =>
      have ho : o = .fail := h o (List.mem_cons_self o os)
      subst ho
      have := ih (fun o' h' => h o' (List.mem_cons_of_mem _ h'))
      simp [tryEndpoints, this]

/-- If the first eligible file of one classifier is `f` and fetching it
succeeds, the inner loop returns that fetch. -/
theorem scanClassifier_find_some (c : String)
    (fetch : FileInfo → Option SpecResult) (files : List FileInfo)
    (f : FileInfo) (r : SpecResult)
    (hfind : files.find? (eligibleFor c) = some f)
    (hfetch : fetch f = some r) :
    scanClassifier c fetch files = some r := by
  induction files with
  | nil => simp at hfind
  | cons g gs ih =>
      by_cases hg : eligibleFor c g
      · rw [List.find?_cons_of_pos _ hg] at hfind
        injection hfind with hf
        subst hf
        simp [scanClassifier, hg, hfetch, oor]
      · rw [List.find?_cons_of_neg _ hg] at hfind
        simp [scanClassifier, hg, ih hfind]

/-- With no eligible file for this classifier, the inner loop yields nothing. -/
theorem scanClassifier_find_none (c : String)
    (fetch : FileInfo → Option SpecResult) (files : List FileInfo)
    (hfind : files.find? (eligibleFor c) = none) :
    scanClassifier c fetch files = none := by
  induction files with
  | nil => rfl
  | cons g gs ih =>
      by_cases hg : eligibleFor c g
      · rw [List.find?_cons_of_pos _ hg] at hfind
        simp at hfind
      · rw [List.find?_cons_of_neg _ hg] at hfind
        simp [scanClassifier, hg, ih hfind]

/-- The outer loop returns the fetch of the priority-major first eligible file
whenever that fetch succeeds. -/
theorem scanPriority_firstEligibleAux (files : List FileInfo)
    (fetch : FileInfo → Option SpecResult) (cs : List String)
    (f : FileInfo) (r : SpecResult)
    (hfe : firstEligibleAux files cs = some f)
    (hfetch : fetch f = some r) :
    scanPriority files fetch cs = some r := by
  induction cs with
  | nil => simp [firstEligibleAux] at hfe
  | cons c cs ih =>
      unfold firstEligibleAux at hfe
      unfold scanPriority
      cases hfind : files.find? (eligibleFor c) with
      | some g =>
          rw [hfind] at hfe
          have hg : g = f := by simpa [oor] using hfe
          rw [scanClassifier_find_some c fetch files f r (hg ▸ hfind) hfetch]
          rfl
      | none =>
          rw [hfind] at hfe
          simp [oor] at hfe
          rw [scanClassifier_find_none c fetch files hfind]
          exact ih hfe

/-! ## Claim theorems -/

/-- C10: when the token endpoint answers with HTTP success but the body lacks
`access_token`, `authenticate` still reports success (`True`) and overwrites
the stored token with the absent value; when the body lacks `expires_in`, the
stored expiry is `now + 3600 − 300 = now + 3300` seconds. -/
theorem authenticate_missing_fields (s : Session) (now : Int) :
    (authenticate s now (some (none, none))).2 = true ∧
    (authenticate s now (some (none, none))).1.accessToken = none ∧
    (authenticate s now (some (none, none))).1.tokenExpiresAt =
      some (now + 3300) ∧
    (∀ tok : String,
        (authenticate s now (some (some tok, none))).1.accessToken = some tok ∧
        (authenticate s now (some (some tok, none))).1.tokenExpiresAt =
          some (now + 3300)) := by
  have h : ((3600 : Int) - 300) = 3300 := by norm_num
  refine ⟨rfl, rfl, ?_, fun tok => ⟨rfl, ?_⟩⟩ <;>
    simp [authenticate, Option.getD, h]

/-- C8: every failure inside a search call yields the empty sequence with no
fault propagated, and a failed search is indistinguishable from a successful
search with zero results. -/
theorem searchAssets_failure_empty :
    (∀ e : String, searchAssetsRun (.error e) = .arr []) ∧
    searchAssetsRun (.ok (.arr [])) = .arr [] ∧
    searchAssetsRun (.ok (.obj [("assets", .arr [])])) = .arr [] ∧
    (∀ e : String, searchAssetsRun (.ok (.arr [])) = searchAssetsRun (.error e)) :=
  ⟨fun _ => rfl, rfl, rfl, fun _ => rfl⟩

/-- C6 counterexample: a decoded map with none of the probed keys is NOT always
returned as a single-element sequence — the empty map is falsy in Python, so
`[data] if data else []` yields the empty sequence for it. -/
theorem searchNormalize_empty_map_cex :
    searchAssetsRun (.ok (.obj [])) = .arr [] ∧
    searchAssetsRun (.ok (.obj [])) ≠ .arr [.obj []] := by
  refine ⟨rfl, ?_⟩
  show Json.arr [] ≠ Json.arr [Json.obj []]
  simp

/-- C6 (amended): an array body is returned unchanged; a map body is probed for
`assets`, then `data`, then `items`, in that order; the first present value is
returned when Python `len()` is defined on it (array, map or string — each
probe branch immediately logs `len()` of the value), while an unsized probed
value (`null`, number, boolean) makes that logging call raise, so the search
returns the empty sequence; a NON-EMPTY map with none of those keys becomes a
single-element sequence, while the EMPTY map becomes the empty sequence; the
four envelope shapes `{assets:[...]}`, `{data:[...]}`, `{items:[...]}` and a
bare array carry the same normalized content. -/
theorem searchNormalize_envelopes :
    (∀ xs : List Json, searchAssetsRun (.ok (.arr xs)) = .arr xs) ∧
    (∀ kvs v, lookupJ kvs "assets" = some v →
        searchAssetsRun (.ok (.obj kvs)) =
          (if hasLen v then v else .arr [])) ∧
    (∀ kvs v, lookupJ kvs "assets" = none → lookupJ kvs "data" = some v →
        searchAssetsRun (.ok (.obj kvs)) =
          (if hasLen v then v else .arr [])) ∧
    (∀ kvs v, lookupJ kvs "assets" = none → lookupJ kvs "data" = none →
        lookupJ kvs "items" = some v →
        searchAssetsRun (.ok (.obj kvs)) =
          (if hasLen v then v else .arr [])) ∧
    (∀ kvs, kvs ≠ [] → lookupJ kvs "assets" = none → lookupJ kvs "data" = none →
        lookupJ kvs "items" = none →
        searchAssetsRun (.ok (.obj kvs)) = .arr [.obj kvs]) ∧
    (∀ ys : List Json,
        searchAssetsRun (.ok (.obj [("assets", .arr ys)])) = .arr ys ∧
        searchAssetsRun (.ok (.obj [("data", .arr ys)])) = .arr ys ∧
        searchAssetsRun (.ok (.obj [("items", .arr ys)])) = .arr ys ∧
        searchAssetsRun (.ok (.arr ys)) = .arr ys) := by
  refine ⟨fun xs => rfl, ?_, ?_, ?_, ?_, fun ys => ⟨rfl, rfl, rfl, rfl⟩⟩
  · intro kvs v h
    by_cases hl : hasLen v <;>
      simp [searchAssetsRun, searchNormalize, h, hl]
  · intro kvs v h1 h2
    by_cases hl : hasLen v <;>
      simp [searchAssetsRun, searchNormalize, h1, h2, hl]
  · intro kvs v h1 h2 h3
    by_cases hl : hasLen v <;>
      simp [searchAssetsRun, searchNormalize, h1, h2, h3, hl]
  · intro kvs hne h1 h2 h3
    cases kvs with
    | nil => exact absurd rfl hne
    | cons kv rest =>
        simp [searchAssetsRun, searchNormalize, h1, h2, h3, truthy]

theorem searchNormalize_envelopes_witness :
    searchAssetsRun (.ok (.obj [("data", .arr [.num 1])])) = .arr [.num 1] := by
  have h := searchNormalize_envelopes.2.2.1 [("data", .arr [.num 1])]
      (.arr [.num 1]) rfl rfl
  simpa using h

/-- C3 counterexample: with the initial empty session and a failing token
request, `get_headers` still hands out headers — built from an ABSENT token. -/
theorem getHeaders_failed_auth_cex :
    getHeadersState ⟨none, none⟩ 0 none = ⟨none, none⟩ ∧
    tokTruthy (getHeadersState ⟨none, none⟩ 0 none).accessToken = false :=
  ⟨rfl, rfl⟩

/-- C3 (amended): after ensure-authentication the headers carry a present,
unexpired token PROVIDED that whenever renewal is triggered the token request
succeeds with a non-empty `access_token` and `expires_in > 300`; a failed
renewal instead reuses the previous — possibly absent or expired — token. -/
theorem getHeaders_token_valid (s : Session) (now : Int) (tok : String)
    (e : Int) (htok : tok ≠ "") (he : 300 < e) :
    tokTruthy (getHeadersState s now (some (some tok, some e))).accessToken =
      true ∧
    (∀ x,
        (getHeadersState s now (some (some tok, some e))).tokenExpiresAt =
          some x → now < x) := by
  unfold getHeadersState ensureAuthenticated
  by_cases h : needsAuth s now
  · simp only [if_pos h, authenticate]
    refine ⟨by simp [tokTruthy, htok], ?_⟩
    intro x hx
    simp only [Option.getD_some, Option.some.injEq] at hx
    omega
  · simp only [if_neg h]
    rw [needsAuth] at h
    simp only [Bool.or_eq_true, Bool.not_eq_true', not_or] at h
    obtain ⟨h1, h2⟩ := h
    refine ⟨by simpa using h1, ?_⟩
    intro x hx
    rw [hx] at h2
    simp at h2
    omega

theorem getHeaders_token_valid_witness :
    (("t" : String) ≠ "") ∧ ((300 : Int) < 3600) ∧
    tokTruthy
      (getHeadersState ⟨none, none⟩ 0
        (some (some "t", some 3600))).accessToken = true :=
  ⟨by decide, by decide,
    (getHeaders_token_valid ⟨none, none⟩ 0 "t" 3600 (by decide) (by decide)).1⟩

/-- C7: with no version given, the effective version is the matched summary's
version when an exact `(group_id, asset_id)` match exists, else the first
summary's version, else `"1.0.0"`; the exact match always beats the
first-result fallback. -/
theorem effectiveVersion_resolution (gid aid : String) (assets : List Json) :
    (assets = [] → effectiveVersion gid aid assets = .str "1.0.0") ∧
    (∀ a v, assets.find? (isMatch gid aid) = some a →
        jget a "version" = some (.str v) → v ≠ "" →
        effectiveVersion gid aid assets = .str v) ∧
    (∀ a0 rest, assets = a0 :: rest →
        assets.find? (isMatch gid aid) = none →
        effectiveVersion gid aid assets =
          (jget a0 "version").getD (.str "1.0.0")) := by
  refine ⟨?_, ?_, ?_⟩
  · rintro rfl
    rfl
  · intro a v hfind hver hne
    cases assets with
    | nil => simp at hfind
    | cons a0 rest =>
        unfold effectiveVersion
        rw [hfind]
        simp [hver, truthy, hne]
  · intro a0 rest he hfind
    subst he
    unfold effectiveVersion
    rw [hfind]
    simp [truthy]

theorem effectiveVersion_resolution_witness :
    effectiveVersion "g" "a"
        [Json.obj [("groupId", Json.str "h")],
         Json.obj [("groupId", Json.str "g"), ("assetId", Json.str "a"),
                   ("version", Json.str "2.0")]] = Json.str "2.0" :=
  (effectiveVersion_resolution "g" "a" _).2.1 _ "2.0" rfl rfl (by decide)

/-- C5: `get_asset_details` tries exactly the four detail endpoints in the
declared order (v2 with version segment, v2 without, v1 with, v1 without),
returns the body of the first HTTP 200 without requesting anything after it,
and a failed attempt only advances to the next endpoint; with no 200 at all,
all four endpoints are requested. -/
theorem detailCascade_first200 (base gid aid ver : String)
    (outcomeOf : String → EndpointOutcome) :
    detailEndpoints base gid aid ver =
      [ base ++ "/exchange/api/v2/assets/" ++ gid ++ "/" ++ aid ++ "/" ++ ver,
        base ++ "/exchange/api/v2/assets/" ++ gid ++ "/" ++ aid,
        base ++ "/exchange/api/v1/assets/" ++ gid ++ "/" ++ aid ++ "/" ++ ver,
        base ++ "/exchange/api/v1/assets/" ++ gid ++ "/" ++ aid ] ∧
    (∀ pre post b,
        (detailEndpoints base gid aid ver).map outcomeOf =
          pre ++ .ok b :: post →
        (∀ o ∈ pre, o = .fail) →
        getAssetDetailsCascade base gid aid ver outcomeOf =
          (some b, pre.length + 1)) ∧
    ((∀ u ∈ detailEndpoints base gid aid ver, outcomeOf u = .fail) →
        getAssetDetailsCascade base gid aid ver outcomeOf = (none, 4)) := by
  refine ⟨rfl, ?_, ?_⟩
  · intro pre post b hmap hpre
    unfold getAssetDetailsCascade
    rw [hmap]
    exact tryEndpoints_append_ok pre post b hpre
  · intro hall
    unfold getAssetDetailsCascade
    rw [tryEndpoints_all_fail]
    · simp [detailEndpoints]
    · intro o ho
      rw [List.mem_map] at ho
      obtain ⟨u, hu, rfl⟩ := ho
      exact hall u hu

theorem detailCascade_first200_witness :
    getAssetDetailsCascade "B" "g" "a" "v"
        (fun u => if u = "B/exchange/api/v1/assets/g/a/v"
                  then .ok (.num 7) else .fail) = (some (.num 7), 3) := by
  have h := (detailCascade_first200 "B" "g" "a" "v"
      (fun u => if u = "B/exchange/api/v1/assets/g/a/v"
                then .ok (.num 7) else .fail)).2.1
      [.fail, .fail] [.fail] (.num 7) rfl (by simp)
  simpa using h

/-- C4: `get_asset_specification` scans the fixed classifier priority list
`[oas, fat-oas, raml, fat-raml]` in that order and returns the result fetched
from the priority-major first file whose classifier matches and whose external
link is non-empty — so an `oas` file wins over a `raml` file that appears
earlier in the files list. -/
theorem getSpec_priority_first (files : List FileInfo)
    (fetch : FileInfo → Option SpecResult) (f : FileInfo) (r : SpecResult) :
    priorityOrder = ["oas", "fat-oas", "raml", "fat-raml"] ∧
    (firstEligible files = some f → fetch f = some r →
        getSpecFromFiles files fetch = some r) := by
  refine ⟨rfl, ?_⟩
  intro hfe hfetch
  exact scanPriority_firstEligibleAux files fetch priorityOrder f r hfe hfetch

theorem getSpec_priority_first_witness :
    getSpecFromFiles
        [⟨"raml", "zip", "http://r", ""⟩, ⟨"oas", "zip", "http://o", ""⟩]
        (fun fi => some (.openapiYaml fi.classifier none "c" [])) =
      some (.openapiYaml "oas" none "c" []) :=
  (getSpec_priority_first
      [⟨"raml", "zip", "http://r", ""⟩, ⟨"oas", "zip", "http://o", ""⟩]
      (fun fi => some (.openapiYaml fi.classifier none "c" []))
      ⟨"oas", "zip", "http://o", ""⟩
      (.openapiYaml "oas" none "c" [])).2 (by decide) rfl

/-- C2 counterexample: with two YAML entries and no declared main file, the
extractor selects the LAST YAML entry of the listing, not the first as
claimed (the scan loop overwrites its candidate on every match). -/
theorem selectTarget_last_yaml_cex :
    selectTarget ["a.yaml", "b.yaml"] none = some "b.yaml" ∧
    ("b.yaml" : String) ≠ "a.yaml" :=
  ⟨by decide, by decide⟩

/-- C2 (amended): the extractor selects, first match wins: (1) the declared
main file when truthy and listed; (2) otherwise the LAST entry (in listing
order) with a YAML/YML extension; (3) otherwise the LAST entry with a JSON
extension; (4) otherwise the first entry; an archive with no entries yields
nothing. -/
theorem selectTarget_characterization (fl : List String) (mf : Option String) :
    (∀ m, mf = some m → m ≠ "" → fl.contains m = true →
        selectTarget fl mf = some m) ∧
    ((∀ m, mf = some m → m = "" ∨ fl.contains m = false) →
        selectTarget fl mf =
          oor (lastMatching isYamlExt fl)
            (oor (lastMatching (fun n => !isYamlExt n && isJsonExt n) fl)
              fl.head?)) ∧
    (fl = [] → selectTarget fl mf = none) := by
  refine ⟨?_, ?_, ?_⟩
  · rintro m rfl hne hcont
    unfold selectTarget
    have hmem : m ∈ fl := by simpa using hcont
    simp [hne, hmem]
  · intro hmain
    unfold selectTarget
    cases mf with
    | none => rw [scanYamlJson_eq]
    | some m =>
        rcases hmain m rfl with h | h
        · subst h
          simp [scanYamlJson_eq]
        · have hmem : m ∉ fl := by simpa using h
          simp [hmem, scanYamlJson_eq]
  · rintro rfl
    cases mf with
    | none => rfl
    | some m =>
        unfold selectTarget
        by_cases h : m = "" <;> simp [h, scanYamlJson_eq, lastMatching, oor]

theorem selectTarget_characterization_witness :
    selectTarget ["a.txt", "spec.yaml", "spec.json"] none = some "spec.yaml" := by
  have h := (selectTarget_characterization
      ["a.txt", "spec.yaml", "spec.json"] none).2.1 (fun m hm => nomatch hm)
  rw [h]
  decide

/-- C1 counterexample: the path `/accounts/{accountId}` has a brace-delimited
path-parameter segment, yet a GET on it is classified as a listing — the source
tests for the literal substring `'{id}'`, not for arbitrary parameter names. -/
theorem classify_brace_param_cex :
    pathHasBraceParamSpec "/accounts/{accountId}" = true ∧
    classifyEndpoint "GET" "/accounts/{accountId}" = Pattern.listing ∧
    Pattern.listing ≠ Pattern.get_by_id :=
  ⟨by decide, by decide, by decide⟩

/-- C1 (amended): for every endpoint record derived from a structured
specification, a GET whose path contains the LITERAL substring `{id}` is
classified `get_by_id`, any other GET `list`, POST `create`, PUT or PATCH
`update`, DELETE `delete`, and any other method is left unclassified; on the
spec's example document the method histogram is GET:2, POST:1, DELETE:1 and
the pattern set contains list, create, get_by_id and delete. -/
theorem classify_patterns_amended :
    (∀ (paths : List (String × Json)) (pm : String × String),
        pm ∈ pathMethodPairs paths →
        classifyEndpoint pm.2 pm.1 =
          (if pm.2 = "GET" then
             (if strContains pm.1 "{id}" then Pattern.get_by_id
              else Pattern.listing)
           else if pm.2 = "POST" then Pattern.create
           else if pm.2 = "PUT" ∨ pm.2 = "PATCH" then Pattern.update
           else if pm.2 = "DELETE" then Pattern.delete
           else Pattern.unclassified)) ∧
    countMethod (pathMethodPairs examplePaths) "GET" = 2 ∧
    countMethod (pathMethodPairs examplePaths) "POST" = 1 ∧
    countMethod (pathMethodPairs examplePaths) "DELETE" = 1 ∧
    Pattern.listing ∈ patternsOf (pathMethodPairs examplePaths) ∧
    Pattern.create ∈ patternsOf (pathMethodPairs examplePaths) ∧
    Pattern.get_by_id ∈ patternsOf (pathMethodPairs examplePaths) ∧
    Pattern.delete ∈ patternsOf (pathMethodPairs examplePaths) := by
  refine ⟨?_, by decide, by decide, by decide, by decide, by decide,
    by decide, by decide⟩
  intro paths pm _
  unfold classifyEndpoint
  by_cases h1 : pm.2 = "GET"
  · by_cases h2 : strContains pm.1 "{id}" <;> simp [h1, h2]
  · by_cases h3 : pm.2 = "POST"
    · simp [h1, h3]
    · by_cases h4 : pm.2 = "PUT"
      · simp [h1, h3, h4]
      · by_cases h5 : pm.2 = "PATCH"
        · simp [h1, h3, h4, h5]
        · by_cases h6 : pm.2 = "DELETE" <;> simp [h1, h3, h4, h5, h6]

theorem classify_patterns_amended_witness :
    classifyEndpoint "GET" "/accounts/{id}" = Pattern.get_by_id := by
  have h := classify_patterns_amended.1 examplePaths
      ("/accounts/{id}", "GET") (by decide)
  rw [h]
  decide

/-- C9: a JSON document with a `paths` map, packaged as the selected `.json`
entry of an archive and pushed through the Archive Extractor (which parses it
as structured JSON) and then the Endpoint Analyzer, yields the same endpoint
count as analyzing the parsed document directly. -/
theorem archive_analyze_roundtrip (entries : List (String × String))
    (classifier : String) (mf : Option String) (parse : String → Option Json)
    (kvs ps : List (String × Json)) (target s : String)
    (hsel : selectTarget (entries.map Prod.fst) mf = some target)
    (hjson : strEndsWith (strToLower target) ".json" = true)
    (hcontent : lookupEntry entries target = some s)
    (hparse : parse s = some (.obj kvs))
    (hpaths : lookupJ kvs "paths" = some (.obj ps)) :
    analyzeSpecCount (downloadAndExtractSpec entries classifier mf parse) =
      some ps.length ∧
    endpointCount (.obj kvs) = some ps.length := by
  refine ⟨?_, by simp [endpointCount, hpaths]⟩
  simp [downloadAndExtractSpec, hsel, hjson, hcontent, hparse,
    analyzeSpecCount, endpointCount, hpaths]

theorem archive_analyze_roundtrip_witness :
    analyzeSpecCount
        (downloadAndExtractSpec [("spec.json", "S")] "oas" none
          (fun t => if t = "S"
                    then some (.obj [("paths", .obj [("/a", .obj [])])])
                    else none)) = some 1 := by
  have h := (archive_analyze_roundtrip [("spec.json", "S")] "oas" none
      (fun t => if t = "S"
                then some (.obj [("paths", .obj [("/a", .obj [])])])
                else none)
      [("paths", .obj [("/a", .obj [])])] [("/a", .obj [])] "spec.json" "S"
      (by decide) (by decide) rfl rfl rfl).1
  simpa using h

end MuleSoft
